import Mathlib

/-!
Verification development for the RAPTOR GTFS pipeline and the Raptor-KT
routing engine, as documented in this repository (docs/libraries/raptor).
The repository ships documentation only, so every definition below is
modelled from the specification and the documented binary layout, API
contracts and algorithms.

Layout of the development:
* byte-level primitives of the little-endian binary format;
* the routes/stops streams of the Binary Encoder and Decoder;
* the Service Period Partitioner;
* the Transfer Generator;
* the RAPTOR routing engine (forward and arrive-by searches, filtering,
  validation, result post-processing);
* theorems settling the specification's claims.
-/

namespace Raptor

/-! ### Byte-level primitives (binary-format.md, Technical Notes)

Bytes are naturals `< 256`; multi-byte integers are little-endian.
Decoders consume a byte list and return the decoded value together with
the remaining bytes, or `none` on structural mismatch. -/

/-- Modelled from the spec: little-endian `uint16` encoding (two bytes). -/
def encU16 (n : Nat) : List Nat := [n % 256, n / 256 % 256]

/-- Modelled from the spec: little-endian `uint16` decoding. -/
def decU16 : List Nat → Option (Nat × List Nat)
  | b0 :: b1 :: rest => some (b0 + 256 * b1, rest)
  | _ => none

/-- Modelled from the spec: little-endian `uint32` encoding (four bytes). -/
def encU32 (n : Nat) : List Nat :=
  [n % 256, n / 256 % 256, n / 65536 % 256, n / 16777216 % 256]

/-- Modelled from the spec: little-endian `uint32` decoding. -/
def decU32 : List Nat → Option (Nat × List Nat)
  | b0 :: b1 :: b2 :: b3 :: rest =>
      some (b0 + 256 * b1 + 65536 * b2 + 16777216 * b3, rest)
  | _ => none

/-- Modelled from the spec: little-endian 64-bit word encoding, used for
the bit patterns of IEEE-754 double-precision coordinates. -/
def encU64 (n : Nat) : List Nat :=
  encU32 (n % 4294967296) ++ encU32 (n / 4294967296)

/-- Modelled from the spec: little-endian 64-bit word decoding. -/
def decU64 (bytes : List Nat) : Option (Nat × List Nat) := do
  let (lo, r1) ← decU32 bytes
  let (hi, r2) ← decU32 r1
  pure (lo + 4294967296 * hi, r2)

/-- Modelled from the spec: little-endian `int32` encoding
(two's complement). -/
def encI32 (v : Int) : List Nat := encU32 (v % 4294967296).toNat

/-- Modelled from the spec: little-endian `int32` decoding
(two's complement). -/
def decI32 (bytes : List Nat) : Option (Int × List Nat) := do
  let (n, rest) ← decU32 bytes
  pure (if n < 2147483648 then (n : Int) else (n : Int) - 4294967296, rest)

/-- Decode `n` consecutive records with the element decoder `dec`. -/
def decList (dec : List Nat → Option (α × List Nat)) :
    Nat → List Nat → Option (List α × List Nat)
  | 0, bytes => some ([], bytes)
  | n + 1, bytes => do
      let (x, r1) ← dec bytes
      let (xs, r2) ← decList dec n r1
      pure (x :: xs, r2)

/-- Modelled from the spec: UTF-8 string field, a 16-bit length prefix
followed by the raw bytes (binary-format.md, String Encoding). Names are
kept as their byte sequences. -/
def encName (nm : List Nat) : List Nat := encU16 nm.length ++ nm

/-- Modelled from the spec: decode a length-prefixed string field. -/
def decName (bytes : List Nat) : Option (List Nat × List Nat) := do
  let (len, b1) ← decU16 bytes
  if len ≤ b1.length then some (b1.take len, b1.drop len) else none

/-! ### Delta encoding of trip rows (binary-format.md, Encoding Details)

Per trip row, the first value is absolute (seconds since midnight) and
every subsequent value is the delta from the previous stop's time. -/

/-- Deltas of a tail of a trip row against the previous absolute time. -/
def deltasFrom (prev : Int) : List Int → List Int
  | [] => []
  | t :: ts => (t - prev) :: deltasFrom t ts

/-- Modelled from the spec: delta-encode one trip row (first value
absolute, subsequent values deltas). -/
def deltaEncode : List Int → List Int
  | [] => []
  | t :: ts => t :: deltasFrom t ts

/-- Re-accumulate a tail of deltas on top of the previous absolute time. -/
def accumFrom (prev : Int) : List Int → List Int
  | [] => []
  | d :: ds => (prev + d) :: accumFrom (prev + d) ds

/-- Modelled from the spec: reconstruct a trip's absolute stop times by
re-accumulating deltas from the matrix row. -/
def deltaDecode : List Int → List Int
  | [] => []
  | t :: ds => t :: accumFrom t ds

/-- A stop time fits GTFS seconds-since-midnight stored as `int32`. -/
def timeOK (t : Int) : Prop := 0 ≤ t ∧ t < 2147483648

/-- Modelled from the spec: one delta-encoded trip row as `int32` bytes. -/
def encRow (row : List Int) : List Nat := (deltaEncode row).flatMap encI32

/-- Modelled from the spec: decode one trip row of `stopCount` `int32`
values and re-accumulate its deltas into absolute times. -/
def decRow (stopCount : Nat) (bytes : List Nat) :
    Option (List Int × List Nat) := do
  let (ds, rest) ← decList decI32 stopCount bytes
  pure (deltaDecode ds, rest)

/-! ### Data model and streams (binary-format.md)

Coordinates are IEEE-754 double-precision values; they are carried here as
their 64-bit bit patterns, which is exactly what the byte streams copy. -/

/-- A directed walking transfer record inside a stop record. -/
structure BinTransfer where
  target : Nat
  walk : Int
deriving DecidableEq, Repr

/-- A route record of `routes.bin` (v2): id, name bytes, stop-id pattern,
trip ids, and the trip-by-stop time matrix as absolute rows. -/
structure BinRoute where
  id : Nat
  name : List Nat
  stopIds : List Nat
  tripIds : List Nat
  times : List (List Int)
deriving DecidableEq, Repr

/-- A stop record of `stops.bin` (v2): id, name bytes, coordinate bit
patterns, route references, outgoing transfers. -/
structure BinStop where
  id : Nat
  name : List Nat
  lat : Nat
  lon : Nat
  routeRefs : List Nat
  transfers : List BinTransfer
deriving DecidableEq, Repr

/-- Name fits the 16-bit length field and is made of bytes. -/
def wfName (nm : List Nat) : Prop := nm.length < 65536 ∧ ∀ b ∈ nm, b < 256

/-- Well-formedness of a route record for encoding: ids and counts fit
`uint32`, the name fits its 16-bit length field, and the time matrix is
consistent (one row per trip, one entry per stop, `int32` times). -/
def wfRoute (r : BinRoute) : Prop :=
  r.id < 4294967296 ∧ wfName r.name ∧ r.stopIds.length < 4294967296 ∧
  r.tripIds.length < 4294967296 ∧ (∀ s ∈ r.stopIds, s < 4294967296) ∧
  (∀ t ∈ r.tripIds, t < 4294967296) ∧ r.times.length = r.tripIds.length ∧
  (∀ row ∈ r.times, row.length = r.stopIds.length ∧ ∀ t ∈ row, timeOK t)

/-- Well-formedness of a routes stream input. -/
def wfRoutes (rs : List BinRoute) : Prop :=
  rs.length < 4294967296 ∧ ∀ r ∈ rs, wfRoute r

/-- Well-formedness of a transfer record. -/
def wfTransfer (t : BinTransfer) : Prop :=
  t.target < 4294967296 ∧ -2147483648 ≤ t.walk ∧ t.walk < 2147483648

/-- Well-formedness of a stop record for encoding. -/
def wfStop (s : BinStop) : Prop :=
  s.id < 4294967296 ∧ wfName s.name ∧ s.lat < 18446744073709551616 ∧
  s.lon < 18446744073709551616 ∧ s.routeRefs.length < 4294967296 ∧
  (∀ r ∈ s.routeRefs, r < 4294967296) ∧ s.transfers.length < 4294967296 ∧
  ∀ t ∈ s.transfers, wfTransfer t

/-- Well-formedness of a stops stream input. -/
def wfStops (ss : List BinStop) : Prop :=
  ss.length < 4294967296 ∧ ∀ s ∈ ss, wfStop s

/-- Modelled from the spec: serialize one route record
(binary-format.md, Route Data Structure). -/
def encRoute (r : BinRoute) : List Nat :=
  encU32 r.id ++ encName r.name ++ encU32 r.stopIds.length ++
  encU32 r.tripIds.length ++ r.stopIds.flatMap encU32 ++
  r.tripIds.flatMap encU32 ++ r.times.flatMap encRow

/-- Modelled from the spec: decode one route record, re-accumulating each
trip row into absolute stop times. -/
def decRoute (bytes : List Nat) : Option (BinRoute × List Nat) := do
  let (rid, b1) ← decU32 bytes
  let (nm, b2) ← decName b1
  let (sc, b3) ← decU32 b2
  let (tc, b4) ← decU32 b3
  let (sids, b5) ← decList decU32 sc b4
  let (tids, b6) ← decList decU32 tc b5
  let (rows, b7) ← decList (decRow sc) tc b6
  pure (⟨rid, nm, sids, tids, rows⟩, b7)

/-- Modelled from the spec: serialize one transfer record. -/
def encTransfer (t : BinTransfer) : List Nat := encU32 t.target ++ encI32 t.walk

/-- Modelled from the spec: decode one transfer record. -/
def decTransfer (bytes : List Nat) : Option (BinTransfer × List Nat) := do
  let (tg, b1) ← decU32 bytes
  let (w, b2) ← decI32 b1
  pure (⟨tg, w⟩, b2)

/-- Modelled from the spec: serialize one stop record
(binary-format.md, Stop Data Structure). -/
def encStop (s : BinStop) : List Nat :=
  encU32 s.id ++ encName s.name ++ encU64 s.lat ++ encU64 s.lon ++
  encU32 s.routeRefs.length ++ s.routeRefs.flatMap encU32 ++
  encU32 s.transfers.length ++ s.transfers.flatMap encTransfer

/-- Modelled from the spec: decode one stop record. -/
def decStop (bytes : List Nat) : Option (BinStop × List Nat) := do
  let (sid, b1) ← decU32 bytes
  let (nm, b2) ← decName b1
  let (la, b3) ← decU64 b2
  let (lo, b4) ← decU64 b3
  let (rc, b5) ← decU32 b4
  let (refs, b6) ← decList decU32 rc b5
  let (tc, b7) ← decU32 b6
  let (trs, b8) ← decList decTransfer tc b7
  pure (⟨sid, nm, la, lo, refs, trs⟩, b8)

/-- `routes.bin` magic tag, the bytes of `RRT2`. -/
def magicRRT2 : List Nat := [82, 82, 84, 50]

/-- `stops.bin` magic tag, the bytes of `RST2`. -/
def magicRST2 : List Nat := [82, 83, 84, 50]

/-- Decode and check a 4-byte magic tag. -/
def decMagic (tag : List Nat) : List Nat → Option (List Nat)
  | b0 :: b1 :: b2 :: b3 :: rest =>
      if [b0, b1, b2, b3] = tag then some rest else none
  | _ => none

/-- Modelled from the spec: the full `routes.bin` stream (magic, schema
version 2, route count, route records). -/
def encodeRoutesStream (rs : List BinRoute) : List Nat :=
  magicRRT2 ++ encU16 2 ++ encU32 rs.length ++ rs.flatMap encRoute

/-- Modelled from the spec: decode a full `routes.bin` stream, checking
the magic tag, the supported schema version, and that the declared count
is consistent with the stream length (no trailing bytes). -/
def decodeRoutesStream (bytes : List Nat) : Option (List BinRoute) := do
  let b1 ← decMagic magicRRT2 bytes
  let (ver, b2) ← decU16 b1
  if ver = 2 then
    let (count, b3) ← decU32 b2
    let (rs, b4) ← decList decRoute count b3
    if b4 = [] then some rs else none
  else none

/-- Modelled from the spec: the full `stops.bin` stream (magic, schema
version 2, stop count, stop records). -/
def encodeStopsStream (ss : List BinStop) : List Nat :=
  magicRST2 ++ encU16 2 ++ encU32 ss.length ++ ss.flatMap encStop

/-- Modelled from the spec: decode a full `stops.bin` stream. -/
def decodeStopsStream (bytes : List Nat) : Option (List BinStop) := do
  let b1 ← decMagic magicRST2 bytes
  let (ver, b2) ← decU16 b1
  if ver = 2 then
    let (count, b3) ← decU32 b2
    let (ss, b4) ← decList decStop count b3
    if b4 = [] then some ss else none
  else none

/-! ### Trip ordering invariant (binary-format.md, Encoding Details) -/

/-- Departure time of a trip row at the route's first stop. -/
def firstDeparture (row : List Int) : Int := row.headD 0

/-- Modelled from the spec: trips within a route are sorted ascending by
departure time at the route's first stop. -/
def tripsSorted (r : BinRoute) : Prop :=
  List.Pairwise (fun a b => firstDeparture a ≤ firstDeparture b) r.times

/-! ### Concrete example records used by the witnesses -/

/-- A concrete stop record (coordinates as 64-bit patterns). -/
def stopEx : BinStop :=
  ⟨101, [86, 105], 4633114350180314653, 13832933921806281532, [1], [⟨102, 120⟩]⟩

/-- A concrete one-trip route record. -/
def routeEx : BinRoute :=
  ⟨1, [76, 49], [101, 102, 103], [1001], [[28800, 29100, 29400]]⟩

/-- A concrete two-trip route record with trips pre-sorted by first-stop
departure time. -/
def routeEx2 : BinRoute :=
  ⟨2, [76, 50], [101, 102, 103], [1001, 1002],
    [[28800, 29100, 29400], [30600, 30900, 31200]]⟩

/-! ### Service Period Partitioner (service-periods.md, spec 4.1) -/

/-- Canonical service periods (service-periods.md, Period Assignment
Rules); non-canonical patterns become custom buckets keyed by their
pattern, which numbers them deterministically. -/
inductive Period where
  | weekday
  | saturday
  | sunday
  | weekend
  | daily
  | custom (pattern : List Bool)
deriving DecidableEq, Repr

/-- A trip reference: trip id plus the service id it runs under. -/
structure TripRec where
  tripId : Nat
  serviceId : Nat
deriving DecidableEq, Repr

/-- Modelled from the spec: a calendar entry for one service id — the
7-bit base weekly pattern (Monday first) plus additive and subtractive
exception dates, represented by the days of week they affect. -/
structure ServiceCal where
  serviceId : Nat
  base : List Bool
  addedDays : List Nat
  removedDays : List Nat
deriving DecidableEq, Repr

/-- Modelled from the spec: effective days of a service — the base
pattern with additive exceptions turned on and subtractive exceptions
turned off. -/
def effectivePattern (cal : ServiceCal) : List Bool :=
  (List.range 7).map (fun d =>
    (cal.base.getD d false || cal.addedDays.contains d) &&
      !cal.removedDays.contains d)

/-- First calendar entry for a service id. -/
def calFor (cals : List ServiceCal) (sid : Nat) : Option ServiceCal :=
  cals.find? (fun c => c.serviceId == sid)

/-- Effective weekly pattern of a service id; a service with no calendar
entry has no effective days. -/
def servicePattern (cals : List ServiceCal) (sid : Nat) : List Bool :=
  match calFor cals sid with
  | some c => effectivePattern c
  | none => List.replicate 7 false

/-- Modelled from the spec: normalize an effective pattern to the nearest
canonical period; an all-false pattern (zero effective days) matches no
period. -/
def classifyPattern (p : List Bool) : Option Period :=
  if p.all (fun b => !b) then none
  else if p = [true, true, true, true, true, false, false] then some .weekday
  else if p = [false, false, false, false, false, true, false] then some .saturday
  else if p = [false, false, false, false, false, false, true] then some .sunday
  else if p = [false, false, false, false, false, true, true] then some .weekend
  else if p = [true, true, true, true, true, true, true] then some .daily
  else some (.custom p)

/-- The period bucket a trip is assigned to, if its service id has at
least one effective day. -/
def bucketOf (cals : List ServiceCal) (t : TripRec) : Option Period :=
  classifyPattern (servicePattern cals t.serviceId)

/-- A service id has zero effective days after applying exceptions. -/
def zeroEffectiveDays (cals : List ServiceCal) (sid : Nat) : Prop :=
  ∀ b ∈ servicePattern cals sid, b = false

/-- Result of partitioning: period buckets with their trips, and the
service ids reported with a warning (zero effective days). -/
structure PartitionResult where
  buckets : List (Period × List TripRec)
  warnings : List Nat
deriving Repr

/-- The distinct periods populated by at least one trip. -/
def periodsOf (cals : List ServiceCal) (trips : List TripRec) : List Period :=
  (trips.filterMap (bucketOf cals)).dedup

/-- Modelled from the spec: partition trips into period buckets; trips of
services with zero effective days go to no bucket and their service ids
are reported as warnings, not errors. -/
def partitionTrips (cals : List ServiceCal) (trips : List TripRec) :
    PartitionResult :=
  { buckets := (periodsOf cals trips).map (fun p =>
      (p, trips.filter (fun t => decide (bucketOf cals t = some p)))),
    warnings :=
      ((trips.filter (fun t => decide (bucketOf cals t = none))).map
        (fun t => t.serviceId)).dedup }

/-! ### Transfer Generator (cli-reference.md Transfer Generation,
spec 4.2)

The great-circle (haversine) distance is an external real-valued
computation; it enters the model as a distance function parameter in
meters. -/

/-- A directed walking transfer between two stops. -/
structure WalkTransfer where
  src : Nat
  tgt : Nat
  dur : Int
deriving DecidableEq, Repr

/-- Modelled from the spec: for each ordered pair of distinct stops
within the distance cutoff, emit a directed transfer whose walk duration
is the distance divided by the walking speed, rounded up; self-loops are
excluded and pairs beyond the cutoff are discarded. -/
def genTransfers (stops : List Nat) (dist : Nat → Nat → ℚ)
    (speed cutoff : ℚ) : List WalkTransfer :=
  stops.flatMap (fun a =>
    stops.filterMap (fun b =>
      if a ≠ b ∧ dist a b ≤ cutoff then
        some ⟨a, b, ⌈dist a b / speed⌉⟩
      else none))

/-- A concrete symmetric distance table used by the witnesses. -/
def distEx (a b : Nat) : ℚ := if a = b then 0 else if a + b = 3 then 300 else 900

/-! ### RAPTOR routing engine (basic-api.md, route-filtering.md,
spec 4.5)

The loaded library is the decoded stops and routes streams; each stop
record carries one time per trip per stop (arrival = departure at a
stop), matching the flattened matrix of the binary format. -/

/-- The runtime library: decoded stop and route records. -/
structure Library where
  stops : List BinStop
  routes : List BinRoute
deriving DecidableEq, Repr

/-- All directed walking transfers of the loaded period, flattened to
(source stop, target stop, walk seconds). -/
def Library.transfersFlat (lib : Library) : List (Nat × Nat × Int) :=
  lib.stops.flatMap (fun s => s.transfers.map (fun t => (s.id, t.target, t.walk)))

/-- A journey leg: a walk or a single-route ride (tagged variant, per the
documented `Leg.WalkLeg` / `Leg.TransitLeg`). -/
inductive Leg where
  | walk (fromStop toStop : Nat) (dur : Int)
  | transit (routeId : Nat) (routeName : List Nat) (fromStop toStop : Nat)
      (board alight : Int)
deriving DecidableEq, Repr

/-- A journey: departure time, arrival time, legs in travel order. -/
structure Journey where
  dep : Int
  arr : Int
  legs : List Leg
deriving DecidableEq, Repr

/-- Forward (depart-at) query parameters: origin and destination stop
sets, departure time, optional route-name allow-list and route-id
block-list, maximum result count. -/
structure Query where
  origins : List Nat
  dests : List Nat
  depTime : Int
  allowedNames : List (List Nat)
  blockedIds : List Nat
  maxResults : Nat
deriving DecidableEq, Repr

/-- Modelled from the spec: a route may be used iff its id is not in the
block-list and, when the allow-list is non-empty, its name is in the
allow-list; the block-list takes precedence (route-filtering.md). -/
def routeAllowed (q : Query) (r : BinRoute) : Bool :=
  !q.blockedIds.contains r.id &&
    (q.allowedNames.isEmpty || q.allowedNames.contains r.name)

/-- Back-pointer recording which route/trip/transfer produced a label. -/
inductive Parent where
  | origin
  | transit (routeId : Nat) (routeName : List Nat) (fromStop : Nat)
      (board alight : Int)
  | walk (fromStop : Nat) (dur : Int)
deriving DecidableEq, Repr

/-- Per-query search state: best-known arrival labels, back-pointers and
the stops improved in the current round. -/
structure SState where
  best : Nat → Option Int
  par : Nat → Option Parent
  marked : List Nat

/-- Record a strictly earlier arrival at a stop, updating the label, the
back-pointer and the marked set; keep the state unchanged otherwise. -/
def improve (st : SState) (s : Nat) (t : Int) (p : Parent) : SState :=
  match st.best s with
  | some t0 =>
      if t < t0 then
        ⟨fun x => if x = s then some t else st.best x,
         fun x => if x = s then some p else st.par x, s :: st.marked⟩
      else st
  | none =>
      ⟨fun x => if x = s then some t else st.best x,
       fun x => if x = s then some p else st.par x, s :: st.marked⟩

/-- Departure (= arrival) time of a trip row at stop position `i`. -/
def tripTime (row : List Int) (i : Nat) : Int := row.getD i 0

/-- Earliest trip of a route departing at position `i` no earlier than
`τ`; trips are pre-sorted, so the first match is the earliest. -/
def earliestTrip (rows : List (List Int)) (i : Nat) (τ : Int) :
    Option (List Int) :=
  rows.find? (fun row => decide (τ ≤ tripTime row i))

/-- One step of the forward route scan at stop position `(i, s)`:
propagate the carried trip's arrival, then possibly board an earlier trip
using the previous round's label at `s`. -/
def scanStep (r : BinRoute) (prevBest : Nat → Option Int)
    (acc : SState × Option (List Int × Nat × Int)) (pos : Nat × Nat) :
    SState × Option (List Int × Nat × Int) :=
  let (st, cur) := acc
  let (i, s) := pos
  let st1 := match cur with
    | some (row, bs, bt) =>
        improve st s (tripTime row i) (.transit r.id r.name bs bt (tripTime row i))
    | none => st
  let cur1 := match prevBest s with
    | some τ =>
        match earliestTrip r.times i τ with
        | some row' =>
            match cur with
            | some (row, _, _) =>
                if tripTime row' i < tripTime row i then
                  some (row', s, tripTime row' i)
                else cur
            | none => some (row', s, tripTime row' i)
        | none => cur
    | none => cur
  (st1, cur1)

/-- Modelled from the spec: scan one route's stop sequence in travel
order, carrying the currently-boarded trip forward. -/
def scanRoute (r : BinRoute) (prevBest : Nat → Option Int) (st : SState) :
    SState :=
  (r.stopIds.enum.foldl (scanStep r prevBest) (st, none)).1

/-- Modelled from the spec: relax outgoing walking transfers of every
stop improved this round, keeping only strict improvements. -/
def relaxTransfers (lib : Library) (st : SState) : SState :=
  lib.transfersFlat.foldl
    (fun acc uvd =>
      if st.marked.contains uvd.1 then
        match st.best uvd.1 with
        | some t => improve acc uvd.2.1 (t + uvd.2.2) (.walk uvd.1 uvd.2.2)
        | none => acc
      else acc)
    st

/-- Modelled from the spec: one RAPTOR round — scan every allowed route
touched by a stop improved in the previous round, then relax transfers.
Route filtering is applied at route-scan time. -/
def raptorStep (lib : Library) (q : Query) (st : SState) : SState :=
  let prevBest := st.best
  let touched := lib.routes.filter
    (fun r => routeAllowed q r && r.stopIds.any (fun s => st.marked.contains s))
  let st1 := touched.foldl (fun acc r => scanRoute r prevBest acc)
    ⟨st.best, st.par, []⟩
  relaxTransfers lib st1

/-- Modelled from the spec: the bounded round loop with early exit when a
fixed point is reached (no stop improved in a round). -/
def runRounds (lib : Library) (q : Query) : Nat → SState → SState
  | 0, st => st
  | k + 1, st =>
      if st.marked.isEmpty then st
      else runRounds lib q k (raptorStep lib q st)

/-- Initial state: every origin stop labelled with the departure time. -/
def initState (q : Query) : SState :=
  ⟨fun s => if q.origins.contains s then some q.depTime else none,
   fun s => if q.origins.contains s then some .origin else none,
   q.origins⟩

/-- Rebuild the leg sequence leading to a stop from the back-pointers,
with fuel bounding the chain length. -/
def buildLegs (par : Nat → Option Parent) : Nat → Nat → Option (List Leg)
  | 0, _ => none
  | fuel + 1, s =>
      match par s with
      | none => none
      | some .origin => some []
      | some (.transit rid rnm bs bt al) =>
          match buildLegs par fuel bs with
          | some legs => some (legs ++ [.transit rid rnm bs s bt al])
          | none => none
      | some (.walk u d) =>
          match buildLegs par fuel u with
          | some legs => some (legs ++ [.walk u s d])
          | none => none

/-- Journey departure time: the first transit leg's boarding time, or the
query departure time when the journey starts with a walk. -/
def journeyDep (t0 : Int) : List Leg → Int
  | .transit _ _ _ _ b _ :: _ => b
  | _ => t0

/-- Reconstruct one journey to a destination stop from its best label. -/
def extractJourney (q : Query) (st : SState) (fuel : Nat) (d : Nat) :
    Option Journey :=
  match st.best d with
  | none => none
  | some arr =>
      match buildLegs st.par fuel d with
      | none => none
      | some legs => some ⟨journeyDep q.depTime legs, arr, legs⟩

/-- Total travel time of a journey. -/
def totalTime (j : Journey) : Int := j.arr - j.dep

/-- Insert into a list sorted by total travel time ascending. -/
def insertByTotal (j : Journey) : List Journey → List Journey
  | [] => [j]
  | x :: xs =>
      if totalTime j ≤ totalTime x then j :: x :: xs else x :: insertByTotal j xs

/-- Sort journeys by total travel time ascending. -/
def sortByTotal (js : List Journey) : List Journey := js.foldr insertByTotal []

/-- Default round bound (max transfers + 1). -/
def maxRounds : Nat := 6

/-- Modelled from the spec: the forward (depart-at) search with an
explicit round bound — run the rounds, reconstruct one journey per
destination, de-duplicate, sort by total travel time ascending, truncate
to the max result count. -/
def forwardSearch (lib : Library) (q : Query) (rounds : Nat) :
    List Journey :=
  let st := runRounds lib q rounds (initState q)
  let js := (q.dests.filterMap (extractJourney q st (2 * rounds + 2))).dedup
  (sortByTotal js).take q.maxResults

/-- The documented forward search entry point. -/
def getOptimizedPaths (lib : Library) (q : Query) : List Journey :=
  forwardSearch lib q maxRounds

/-- Valid time-of-day range; the exact upper bound is not fixed by the
documentation, modelled as [0 s, 48 h) to cover GTFS times past
midnight. -/
def validTimeOfDay (t : Int) : Prop := 0 ≤ t ∧ t < 172800

/-- Boolean form of `validTimeOfDay`. -/
def validTimeOfDayB (t : Int) : Bool := decide (0 ≤ t) && decide (t < 172800)

/-- Modelled from the spec: query validation — empty origin set, empty
destination set or an out-of-range time-of-day is rejected with a
descriptive error before any search begins; a valid query that finds
nothing returns an empty list, not an error. -/
def getOptimizedPathsChecked (lib : Library) (q : Query) :
    Except String (List Journey) :=
  if q.origins.isEmpty then .error "origin stop set is empty"
  else if q.dests.isEmpty then .error "destination stop set is empty"
  else if !validTimeOfDayB q.depTime then
    .error "departure time is outside the valid time-of-day range"
  else .ok (getOptimizedPaths lib q)

/-- Modelled from the spec: the engine holds no session state — a call
returns the untouched library together with the result computed from
fresh per-call labels. -/
def getOptimizedPathsStateful (lib : Library) (q : Query) :
    Library × List Journey :=
  (lib, getOptimizedPaths lib q)

/-! ### Arrive-by (reverse) search (basic-api.md, spec 4.5) -/

/-- Arrive-by query parameters: target arrival time and a search window
in minutes bound how early a departure may be. -/
structure QueryArr where
  origins : List Nat
  dests : List Nat
  arrTime : Int
  windowMin : Int
  allowedNames : List (List Nat)
  blockedIds : List Nat
  maxResults : Nat
deriving DecidableEq, Repr

/-- Route filter for the arrive-by search (same contract). -/
def routeAllowedArr (q : QueryArr) (r : BinRoute) : Bool :=
  !q.blockedIds.contains r.id &&
    (q.allowedNames.isEmpty || q.allowedNames.contains r.name)

/-- Back-pointer of the reverse search: the next leg towards the
destination taken from this stop. -/
inductive RParent where
  | dest
  | transit (routeId : Nat) (routeName : List Nat) (toStop : Nat)
      (board alight : Int)
  | walk (toStop : Nat) (dur : Int)
deriving DecidableEq, Repr

/-- Reverse search state: latest-possible-departure labels. -/
structure RState where
  best : Nat → Option Int
  par : Nat → Option RParent
  marked : List Nat

/-- Record a strictly later departure label at a stop. -/
def improveMax (st : RState) (s : Nat) (t : Int) (p : RParent) : RState :=
  match st.best s with
  | some t0 =>
      if t0 < t then
        ⟨fun x => if x = s then some t else st.best x,
         fun x => if x = s then some p else st.par x, s :: st.marked⟩
      else st
  | none =>
      ⟨fun x => if x = s then some t else st.best x,
       fun x => if x = s then some p else st.par x, s :: st.marked⟩

/-- Latest trip of a route arriving at position `i` no later than `τ`;
trips are pre-sorted ascending, so the last match is the latest. -/
def latestTrip (rows : List (List Int)) (i : Nat) (τ : Int) :
    Option (List Int) :=
  rows.reverse.find? (fun row => decide (tripTime row i ≤ τ))

/-- One step of the reverse route scan, traversing the stop sequence
backward and carrying the trip to be ridden towards the destination. -/
def scanStepR (r : BinRoute) (prevBest : Nat → Option Int)
    (acc : RState × Option (List Int × Nat × Int)) (pos : Nat × Nat) :
    RState × Option (List Int × Nat × Int) :=
  let (st, cur) := acc
  let (i, s) := pos
  let st1 := match cur with
    | some (row, as_, at_) =>
        improveMax st s (tripTime row i)
          (.transit r.id r.name as_ (tripTime row i) at_)
    | none => st
  let cur1 := match prevBest s with
    | some τ =>
        match latestTrip r.times i τ with
        | some row' =>
            match cur with
            | some (row, _, _) =>
                if tripTime row i < tripTime row' i then
                  some (row', s, tripTime row' i)
                else cur
            | none => some (row', s, tripTime row' i)
        | none => cur
    | none => cur
  (st1, cur1)

/-- Scan one route backward (time-reversed dual of the forward scan). -/
def scanRouteR (r : BinRoute) (prevBest : Nat → Option Int) (st : RState) :
    RState :=
  (r.stopIds.enum.reverse.foldl (scanStepR r prevBest) (st, none)).1

/-- Relax transfers backward: walking into an improved stop proposes a
departure from the source `walk` seconds earlier. -/
def relaxTransfersR (lib : Library) (st : RState) : RState :=
  lib.transfersFlat.foldl
    (fun acc uvd =>
      if st.marked.contains uvd.2.1 then
        match st.best uvd.2.1 with
        | some t => improveMax acc uvd.1 (t - uvd.2.2) (.walk uvd.2.1 uvd.2.2)
        | none => acc
      else acc)
    st

/-- One reverse round. -/
def raptorStepR (lib : Library) (q : QueryArr) (st : RState) : RState :=
  let prevBest := st.best
  let touched := lib.routes.filter
    (fun r => routeAllowedArr q r && r.stopIds.any (fun s => st.marked.contains s))
  let st1 := touched.foldl (fun acc r => scanRouteR r prevBest acc)
    ⟨st.best, st.par, []⟩
  relaxTransfersR lib st1

/-- The bounded reverse round loop with early exit. -/
def runRoundsR (lib : Library) (q : QueryArr) : Nat → RState → RState
  | 0, st => st
  | k + 1, st =>
      if st.marked.isEmpty then st
      else runRoundsR lib q k (raptorStepR lib q st)

/-- Initial reverse state: destinations labelled with the target arrival
time. -/
def initStateR (q : QueryArr) : RState :=
  ⟨fun s => if q.dests.contains s then some q.arrTime else none,
   fun s => if q.dests.contains s then some .dest else none,
   q.dests⟩

/-- Rebuild the legs from a stop forward to the destination, tracking the
current time to compute the final arrival. -/
def buildLegsR (par : Nat → Option RParent) :
    Nat → Nat → Int → Option (List Leg × Int)
  | 0, _, _ => none
  | fuel + 1, s, tcur =>
      match par s with
      | none => none
      | some .dest => some ([], tcur)
      | some (.transit rid rnm ts b al) =>
          match buildLegsR par fuel ts al with
          | some (legs, fin) => some (.transit rid rnm s ts b al :: legs, fin)
          | none => none
      | some (.walk ts d) =>
          match buildLegsR par fuel ts (tcur + d) with
          | some (legs, fin) => some (.walk s ts d :: legs, fin)
          | none => none

/-- Reconstruct one journey from an origin's latest-departure label. -/
def extractJourneyR (st : RState) (fuel : Nat) (o : Nat) : Option Journey :=
  match st.best o with
  | none => none
  | some dep =>
      match buildLegsR st.par fuel o dep with
      | none => none
      | some (legs, fin) => some ⟨dep, fin, legs⟩

/-- Insert into a list sorted by departure time descending. -/
def insertByDep (j : Journey) : List Journey → List Journey
  | [] => [j]
  | x :: xs => if x.dep ≤ j.dep then j :: x :: xs else x :: insertByDep j xs

/-- Sort journeys by departure time descending (latest first). -/
def sortByDepDesc (js : List Journey) : List Journey := js.foldr insertByDep []

/-- Modelled from the spec: the arrive-by search with an explicit round
bound — run the reverse rounds, reconstruct one journey per origin,
discard departures earlier than (target arrival − search window), sort by
departure time descending, truncate. -/
def arriveBySearch (lib : Library) (q : QueryArr) (rounds : Nat) :
    List Journey :=
  let st := runRoundsR lib q rounds (initStateR q)
  let js := (q.origins.filterMap (extractJourneyR st (2 * rounds + 2))).dedup
  let inWindow := js.filter
    (fun j => decide (q.arrTime - 60 * q.windowMin ≤ j.dep))
  (sortByDepDesc inWindow).take q.maxResults

/-- The documented arrive-by search entry point. -/
def getOptimizedPathsArriveBy (lib : Library) (q : QueryArr) : List Journey :=
  arriveBySearch lib q maxRounds

/-! ### Library loading (basic-api.md Initialization, multi-period.md) -/

/-- Modelled from the spec: RaptorLibrary initialization from the stops
stream and the routes stream alone. -/
def buildLibrary (stopsBin routesBin : List Nat) : Option Library := do
  let ss ← decodeStopsStream stopsBin
  let rs ← decodeRoutesStream routesBin
  pure ⟨ss, rs⟩

/-- Modelled from the spec: loading one period's artifacts on the
runtime side; the constructor consumes only `stops.bin` and `routes.bin`
(basic-api.md), so the accompanying `index.bin` bytes are never read. -/
def loadPeriodArtifacts (stopsBin routesBin _indexBin : List Nat) :
    Option Library :=
  buildLibrary stopsBin routesBin

/-- A weekday service calendar (witness data). -/
def calWk : ServiceCal :=
  ⟨1, [true, true, true, true, true, false, false], [], []⟩

/-- A saturday-only service whose single day is removed by exceptions,
leaving zero effective days (witness data). -/
def calZero : ServiceCal :=
  ⟨2, [false, false, false, false, false, true, false], [], [5]⟩

/-- Witness calendars. -/
def calsEx : List ServiceCal := [calWk, calZero]

/-- Witness trips: one on the weekday service, one on the dead service. -/
def tripsEx : List TripRec := [⟨100, 1⟩, ⟨200, 2⟩]

/-- Witness route `A`: stops 1 → 2 → 3, one trip 08:00 / 08:05 / 08:10. -/
def routeA : BinRoute := ⟨10, [65], [1, 2, 3], [101], [[28800, 29100, 29400]]⟩

/-- Witness route `B`: stops 3 → 4, one trip 08:12 / 08:20. -/
def routeB : BinRoute := ⟨20, [66], [3, 4], [201], [[29520, 30000]]⟩

/-- A plain witness stop record. -/
def stopRec (n : Nat) : BinStop := ⟨n, [48 + n], 0, 0, [], []⟩

/-- The witness library (the spec's two-route scenario network). -/
def libEx : Library :=
  ⟨[stopRec 1, stopRec 2, stopRec 3, stopRec 4], [routeA, routeB]⟩

/-- Witness forward query: stop 1 to stop 4 departing 08:00. -/
def qEx : Query := ⟨[1], [4], 28800, [], [], 10⟩

/-- Witness arrive-by query: reach stop 4 by 08:20, 60-minute window. -/
def qArrEx : QueryArr := ⟨[1], [4], 30000, 60, [], [], 10⟩

/-- Label map `b2` covers `b1`: every stop labelled in `b1` is labelled
in `b2` with an arrival no later. -/
def coversB (b1 b2 : Nat → Option Int) : Prop :=
  ∀ s t, b1 s = some t → ∃ t', b2 s = some t' ∧ t' ≤ t

/-- A back-pointer respects the query's route filters: any transit entry
uses an allowed, unblocked route. -/
def parentOk (q : Query) : Option Parent → Prop
  | some (.transit rid rnm _ _ _) =>
      (q.allowedNames ≠ [] → rnm ∈ q.allowedNames) ∧ rid ∉ q.blockedIds
  | _ => True

/-- Every back-pointer of a search state respects the route filters. -/
def stateOk (q : Query) (st : SState) : Prop := ∀ s, parentOk q (st.par s)

/-- A journey leg respects the query's route filters. -/
def legOk (q : Query) : Leg → Prop
  | .transit rid rnm _ _ _ _ =>
      (q.allowedNames ≠ [] → rnm ∈ q.allowedNames) ∧ rid ∉ q.blockedIds
  | .walk _ _ _ => True

/-- Witness query with an allow-list holding both route names. -/
def qFil : Query := ⟨[1], [4], 28800, [[65], [66]], [], 10⟩

/-- The scenario journey returned on the witness network. -/
def jEx : Journey :=
  ⟨28800, 30000, [.transit 10 [65] 1 3 28800 29400,
    .transit 20 [66] 3 4 29520 30000]⟩

/-! ### THEOREMS -/

theorem decU16_enc (n : Nat) (h : n < 65536) (rest : List Nat) :
    decU16 (encU16 n ++ rest) = some (n, rest) := by
  simp only [encU16, decU16, List.cons_append, List.nil_append]
  congr 2
  omega

theorem decU32_enc (n : Nat) (h : n < 4294967296) (rest : List Nat) :
    decU32 (encU32 n ++ rest) = some (n, rest) := by
  simp only [encU32, decU32, List.cons_append, List.nil_append]
  congr 2
  omega

theorem decU64_enc (n : Nat) (h : n < 18446744073709551616) (rest : List Nat) :
    decU64 (encU64 n ++ rest) = some (n, rest) := by
  simp only [encU64, decU64, List.append_assoc]
  rw [decU32_enc _ (by omega), Option.bind_eq_bind, Option.some_bind,
    decU32_enc _ (by omega)]
  simp only [Option.bind_eq_bind, Option.some_bind]
  congr 2
  omega

theorem decI32_enc (v : Int) (h1 : -2147483648 ≤ v) (h2 : v < 2147483648)
    (rest : List Nat) : decI32 (encI32 v ++ rest) = some (v, rest) := by
  simp only [encI32, decI32]
  have hb : (v % 4294967296).toNat < 4294967296 := by omega
  rw [decU32_enc _ hb rest]
  simp only [Option.bind_eq_bind, Option.some_bind, Option.pure_def,
    Option.some.injEq, Prod.mk.injEq, and_true]
  split <;> omega

theorem decList_enc (dec : List Nat → Option (α × List Nat))
    (enc : α → List Nat) (xs : List α)
    (h : ∀ x ∈ xs, ∀ r, dec (enc x ++ r) = some (x, r)) (rest : List Nat) :
    decList dec xs.length (xs.flatMap enc ++ rest) = some (xs, rest) := by
  induction xs with
  | nil => simp [decList]
  | cons x xs ih =>
      simp only [List.length_cons, List.flatMap_cons, List.append_assoc, decList]
      rw [h x (List.mem_cons_self x xs)]
      simp only [Option.bind_eq_bind, Option.some_bind]
      rw [ih (fun y hy r => h y (List.mem_cons_of_mem x hy) r)]
      rfl

theorem decName_enc (nm : List Nat) (h : nm.length < 65536) (rest : List Nat) :
    decName (encName nm ++ rest) = some (nm, rest) := by
  simp only [encName, decName, List.append_assoc]
  rw [decU16_enc _ h]
  simp only [Option.bind_eq_bind, Option.some_bind]
  have hle : nm.length ≤ (nm ++ rest).length := by simp
  rw [if_pos hle, List.take_left, List.drop_left]

theorem accumFrom_deltasFrom (prev : Int) (ts : List Int) :
    accumFrom prev (deltasFrom prev ts) = ts := by
  induction ts generalizing prev with
  | nil => rfl
  | cons t ts ih => simp [deltasFrom, accumFrom, ih]

theorem deltaDecode_deltaEncode (row : List Int) :
    deltaDecode (deltaEncode row) = row := by
  cases row with
  | nil => rfl
  | cons t ts => simp [deltaEncode, deltaDecode, accumFrom_deltasFrom]

theorem deltasFrom_range (prev : Int) (ts : List Int) (hp : timeOK prev)
    (hts : ∀ t ∈ ts, timeOK t) :
    ∀ d ∈ deltasFrom prev ts, -2147483648 ≤ d ∧ d < 2147483648 := by
  induction ts generalizing prev with
  | nil => simp [deltasFrom]
  | cons t ts ih =>
      intro d hd
      simp only [deltasFrom, List.mem_cons] at hd
      rcases hd with h | h
      · have h1 := hts t (List.mem_cons_self t ts)
        simp only [timeOK] at h1 hp
        omega
      · exact ih t (hts t (List.mem_cons_self t ts))
          (fun u hu => hts u (List.mem_cons_of_mem t hu)) d h

theorem deltaEncode_range (row : List Int) (h : ∀ t ∈ row, timeOK t) :
    ∀ d ∈ deltaEncode row, -2147483648 ≤ d ∧ d < 2147483648 := by
  cases row with
  | nil => simp [deltaEncode]
  | cons t ts =>
      intro d hd
      simp only [deltaEncode, List.mem_cons] at hd
      rcases hd with h' | h'
      · have h1 := h t (List.mem_cons_self t ts)
        simp only [timeOK] at h1
        omega
      · exact deltasFrom_range t ts (h t (List.mem_cons_self t ts))
          (fun u hu => h u (List.mem_cons_of_mem t hu)) d h'

theorem deltaEncode_length (row : List Int) :
    (deltaEncode row).length = row.length := by
  cases row with
  | nil => rfl
  | cons t ts =>
      simp only [deltaEncode, List.length_cons, Nat.succ.injEq]
      induction ts generalizing t with
      | nil => rfl
      | cons u us ih => simp [deltasFrom, ih]

theorem decRow_enc (row : List Int) (h : ∀ t ∈ row, timeOK t)
    (rest : List Nat) : decRow row.length (encRow row ++ rest) = some (row, rest) := by
  simp only [encRow, decRow]
  rw [← deltaEncode_length row,
    decList_enc decI32 encI32 (deltaEncode row)
      (fun d hd r => decI32_enc d (deltaEncode_range row h d hd).1
        (deltaEncode_range row h d hd).2 r) rest]
  simp [deltaDecode_deltaEncode]

theorem decRoute_enc (r : BinRoute) (h : wfRoute r) (rest : List Nat) :
    decRoute (encRoute r ++ rest) = some (r, rest) := by
  obtain ⟨hid, hnm, hsc, htc, hsids, htids, hrows, hrow⟩ := h
  simp only [encRoute, decRoute, List.append_assoc]
  rw [decU32_enc _ hid]
  simp only [Option.bind_eq_bind, Option.some_bind]
  rw [decName_enc _ hnm.1]
  simp only [Option.some_bind]
  rw [decU32_enc _ hsc]
  simp only [Option.some_bind]
  rw [decU32_enc _ htc]
  simp only [Option.some_bind]
  rw [decList_enc decU32 encU32 r.stopIds (fun s hs rr => decU32_enc s (hsids s hs) rr)]
  simp only [Option.some_bind]
  rw [decList_enc decU32 encU32 r.tripIds (fun t ht rr => decU32_enc t (htids t ht) rr)]
  simp only [Option.some_bind]
  rw [← hrows]
  rw [decList_enc (decRow r.stopIds.length) encRow r.times
    (fun row hrw rr => by
      rw [← (hrow row hrw).1]
      exact decRow_enc row (hrow row hrw).2 rr)]
  rfl

theorem decStop_enc (s : BinStop) (h : wfStop s) (rest : List Nat) :
    decStop (encStop s ++ rest) = some (s, rest) := by
  obtain ⟨hid, hnm, hla, hlo, hrc, hrefs, htc, htrs⟩ := h
  simp only [encStop, decStop, List.append_assoc]
  rw [decU32_enc _ hid]
  simp only [Option.bind_eq_bind, Option.some_bind]
  rw [decName_enc _ hnm.1]
  simp only [Option.some_bind]
  rw [decU64_enc _ hla]
  simp only [Option.some_bind]
  rw [decU64_enc _ hlo]
  simp only [Option.some_bind]
  rw [decU32_enc _ hrc]
  simp only [Option.some_bind]
  rw [decList_enc decU32 encU32 s.routeRefs (fun x hx rr => decU32_enc x (hrefs x hx) rr)]
  simp only [Option.some_bind]
  rw [decU32_enc _ htc]
  simp only [Option.some_bind]
  rw [decList_enc decTransfer encTransfer s.transfers
    (fun t ht rr => by
      obtain ⟨h1, h2, h3⟩ := htrs t ht
      simp only [encTransfer, decTransfer, List.append_assoc]
      rw [decU32_enc _ h1]
      simp only [Option.bind_eq_bind, Option.some_bind]
      rw [decI32_enc _ h2 h3]
      rfl)]
  rfl

theorem decodeRoutesStream_enc (rs : List BinRoute) (h : wfRoutes rs) :
    decodeRoutesStream (encodeRoutesStream rs) = some rs := by
  obtain ⟨hc, hr⟩ := h
  simp only [encodeRoutesStream, decodeRoutesStream, magicRRT2, List.cons_append,
    List.nil_append, decMagic, List.append_assoc]
  rw [if_pos trivial]
  simp only [Option.bind_eq_bind, Option.some_bind]
  rw [decU16_enc 2 (by norm_num)]
  simp only [Option.some_bind, if_pos rfl]
  rw [decU32_enc _ hc]
  simp only [Option.some_bind]
  rw [if_pos trivial]
  have hdl := decList_enc decRoute encRoute rs
    (fun r hrr rr => decRoute_enc r (hr r hrr) rr) []
  rw [List.append_nil] at hdl
  rw [hdl]
  simp

theorem decodeStopsStream_enc (ss : List BinStop) (h : wfStops ss) :
    decodeStopsStream (encodeStopsStream ss) = some ss := by
  obtain ⟨hc, hs⟩ := h
  simp only [encodeStopsStream, decodeStopsStream, magicRST2, List.cons_append,
    List.nil_append, decMagic, List.append_assoc]
  rw [if_pos trivial]
  simp only [Option.bind_eq_bind, Option.some_bind]
  rw [decU16_enc 2 (by norm_num)]
  simp only [Option.some_bind, if_pos rfl]
  rw [decU32_enc _ hc]
  simp only [Option.some_bind]
  rw [if_pos trivial]
  have hdl := decList_enc decStop encStop ss
    (fun x hss rr => decStop_enc x (hs x hss) rr) []
  rw [List.append_nil] at hdl
  rw [hdl]
  simp

/-- C1: for every transit model whose names fit the 16-bit length field
(and whose fields fit the format's integer widths), decoding the byte
streams produced by the Binary Encoder reproduces exactly the original
stop and route data — ids, names, coordinate bit patterns, transfers, and
each trip's absolute stop-time sequence after re-accumulating its
delta-encoded matrix row. -/
theorem encode_decode_roundtrip (ss : List BinStop) (rs : List BinRoute)
    (hs : wfStops ss) (hr : wfRoutes rs) :
    decodeStopsStream (encodeStopsStream ss) = some ss ∧
    decodeRoutesStream (encodeRoutesStream rs) = some rs :=
  ⟨decodeStopsStream_enc ss hs, decodeRoutesStream_enc rs hr⟩

/-- Witness for C1 on a concrete one-stop, one-route model. -/
theorem encode_decode_roundtrip_witness :
    (wfStops [stopEx] ∧ wfRoutes [routeEx]) ∧
    (decodeStopsStream (encodeStopsStream [stopEx]) = some [stopEx] ∧
     decodeRoutesStream (encodeRoutesStream [routeEx]) = some [routeEx]) :=
  ⟨⟨by norm_num [stopEx, wfStops, wfStop, wfName, wfTransfer],
    by norm_num [routeEx, wfRoutes, wfRoute, wfName, timeOK]⟩,
   encode_decode_roundtrip [stopEx] [routeEx]
     (by norm_num [stopEx, wfStops, wfStop, wfName, wfTransfer])
     (by norm_num [routeEx, wfRoutes, wfRoute, wfName, timeOK])⟩

/-- C3: when the input routes satisfy the documented pre-sorting
invariant (trips ascending by first-stop departure time), the encoded
routes stream decodes back to exactly the same routes — the trip rows in
identical order, still sorted; encoding and decoding reorder nothing. -/
theorem trips_order_preserved (rs : List BinRoute) (hr : wfRoutes rs)
    (hsort : ∀ r ∈ rs, tripsSorted r) :
    ∃ rs', decodeRoutesStream (encodeRoutesStream rs) = some rs' ∧
      rs' = rs ∧ ∀ r' ∈ rs', tripsSorted r' :=
  ⟨rs, decodeRoutesStream_enc rs hr, rfl, hsort⟩

/-- Witness for C3 on a concrete two-trip route. -/
theorem trips_order_preserved_witness :
    (wfRoutes [routeEx2] ∧ tripsSorted routeEx2) ∧
    ∃ rs', decodeRoutesStream (encodeRoutesStream [routeEx2]) = some rs' ∧
      rs' = [routeEx2] ∧ ∀ r' ∈ rs', tripsSorted r' :=
  ⟨⟨by norm_num [routeEx2, wfRoutes, wfRoute, wfName, timeOK],
    by simp only [tripsSorted]; decide⟩,
   trips_order_preserved [routeEx2]
     (by norm_num [routeEx2, wfRoutes, wfRoute, wfName, timeOK])
     (by intro r hr'; simp only [List.mem_singleton] at hr'; subst hr'
         simp only [tripsSorted]; decide)⟩

/-- C9: the forward search is a pure function of the loaded index and
the query parameters — a call leaves the library unchanged, and running
the search again with identical parameters against the library returned
by the first call yields identical results. -/
theorem forward_search_idempotent (lib : Library) (q : Query) :
    (getOptimizedPathsStateful lib q).1 = lib ∧
    (getOptimizedPathsStateful (getOptimizedPathsStateful lib q).1 q).2 =
      (getOptimizedPathsStateful lib q).2 :=
  ⟨rfl, rfl⟩

/-- C10: the runtime library is fully constructed from the stops stream
and the routes stream alone — loading a valid pair succeeds, the result
never depends on the index stream's bytes, and every valid query on the
loaded library succeeds. -/
theorem library_needs_no_index (ss : List BinStop) (rs : List BinRoute)
    (hs : wfStops ss) (hr : wfRoutes rs) (ib ib' : List Nat) :
    loadPeriodArtifacts (encodeStopsStream ss) (encodeRoutesStream rs) ib =
      some ⟨ss, rs⟩ ∧
    (∀ sb rb, loadPeriodArtifacts sb rb ib = loadPeriodArtifacts sb rb ib') ∧
    (∀ q : Query, q.origins ≠ [] → q.dests ≠ [] → validTimeOfDay q.depTime →
      getOptimizedPathsChecked ⟨ss, rs⟩ q =
        .ok (getOptimizedPaths ⟨ss, rs⟩ q)) := by
  refine ⟨?_, fun sb rb => rfl, fun q ho hd htime => ?_⟩
  · simp only [loadPeriodArtifacts, buildLibrary, decodeStopsStream_enc ss hs,
      decodeRoutesStream_enc rs hr, Option.bind_eq_bind, Option.some_bind]
    rfl
  · have h1 : q.origins.isEmpty = false := by
      cases hqo : q.origins with
      | nil => exact absurd hqo ho
      | cons a l => simp
    have h2 : q.dests.isEmpty = false := by
      cases hqd : q.dests with
      | nil => exact absurd hqd hd
      | cons a l => simp
    have h3 : validTimeOfDayB q.depTime = true := by
      simp only [validTimeOfDayB, Bool.and_eq_true, decide_eq_true_eq]
      exact ⟨htime.1, htime.2⟩
    simp [getOptimizedPathsChecked, h1, h2, h3]

/-- Witness for C10 on a concrete model and two junk index streams. -/
theorem library_needs_no_index_witness :
    (wfStops [stopEx] ∧ wfRoutes [routeEx]) ∧
    (loadPeriodArtifacts (encodeStopsStream [stopEx])
        (encodeRoutesStream [routeEx]) [0] = some ⟨[stopEx], [routeEx]⟩ ∧
     (∀ sb rb, loadPeriodArtifacts sb rb [0] = loadPeriodArtifacts sb rb [1]) ∧
     (∀ q : Query, q.origins ≠ [] → q.dests ≠ [] → validTimeOfDay q.depTime →
       getOptimizedPathsChecked ⟨[stopEx], [routeEx]⟩ q =
         .ok (getOptimizedPaths ⟨[stopEx], [routeEx]⟩ q))) :=
  ⟨⟨by norm_num [stopEx, wfStops, wfStop, wfName, wfTransfer],
    by norm_num [routeEx, wfRoutes, wfRoute, wfName, timeOK]⟩,
   library_needs_no_index [stopEx] [routeEx]
     (by norm_num [stopEx, wfStops, wfStop, wfName, wfTransfer])
     (by norm_num [routeEx, wfRoutes, wfRoute, wfName, timeOK]) [0] [1]⟩

/-- C7: the Transfer Generator emits, for every ordered pair of distinct
stops whose computed distance is at most the cutoff, a directed transfer
of duration ceil(distance / walking speed); it emits no self-loop and
nothing for a pair beyond the cutoff. -/
theorem transfer_generator_correct (stops : List Nat) (dist : Nat → Nat → ℚ)
    (speed cutoff : ℚ) :
    (∀ a ∈ stops, ∀ b ∈ stops, a ≠ b → dist a b ≤ cutoff →
      (⟨a, b, ⌈dist a b / speed⌉⟩ : WalkTransfer) ∈
        genTransfers stops dist speed cutoff) ∧
    (∀ tr ∈ genTransfers stops dist speed cutoff,
      tr.src ≠ tr.tgt ∧ dist tr.src tr.tgt ≤ cutoff ∧
      tr.dur = ⌈dist tr.src tr.tgt / speed⌉) := by
  constructor
  · intro a ha b hb hab hd
    rw [genTransfers, List.mem_flatMap]
    refine ⟨a, ha, ?_⟩
    rw [List.mem_filterMap]
    exact ⟨b, hb, by rw [if_pos ⟨hab, hd⟩]⟩
  · intro tr htr
    rw [genTransfers, List.mem_flatMap] at htr
    obtain ⟨a, _, htr⟩ := htr
    rw [List.mem_filterMap] at htr
    obtain ⟨b, _, htr⟩ := htr
    by_cases h : a ≠ b ∧ dist a b ≤ cutoff
    · rw [if_pos h] at htr
      cases htr
      exact ⟨h.1, h.2, rfl⟩
    · rw [if_neg h] at htr
      cases htr

/-- Witness for C7 on a concrete pair of stops within the cutoff. -/
theorem transfer_generator_witness :
    ((1 : Nat) ∈ [1, 2] ∧ (2 : Nat) ∈ [1, 2] ∧ (1 : Nat) ≠ 2 ∧
      distEx 1 2 ≤ 500) ∧
    (⟨1, 2, ⌈distEx 1 2 / (133 / 100)⌉⟩ : WalkTransfer) ∈
      genTransfers [1, 2] distEx (133 / 100) 500 :=
  ⟨⟨by decide, by decide, by decide, by norm_num [distEx]⟩,
   (transfer_generator_correct [1, 2] distEx (133 / 100) 500).1 1 (by decide)
     2 (by decide) (by decide) (by norm_num [distEx])⟩

theorem classifyPattern_eq_none_iff (p : List Bool) :
    classifyPattern p = none ↔ ∀ b ∈ p, b = false := by
  have hall : (p.all (fun b => !b) = true) ↔ ∀ b ∈ p, b = false := by
    rw [List.all_eq_true]
    constructor
    · intro h b hb
      have := h b hb
      simpa using this
    · intro h b hb
      simp [h b hb]
  unfold classifyPattern
  by_cases h : p.all (fun b => !b) = true
  · simp only [h, if_true]
    exact iff_of_true trivial (hall.mp h)
  · simp only [h, if_false]
    have hno : ¬ ∀ b ∈ p, b = false := fun hh => h (hall.mpr hh)
    have htrue : true ∈ p := by
      by_contra hmem
      refine hno (fun b hb => ?_)
      cases b with
      | false => rfl
      | true => exact absurd hb hmem
    split_ifs <;> simp_all

theorem bucketOf_eq_none_iff (cals : List ServiceCal) (t : TripRec) :
    bucketOf cals t = none ↔ zeroEffectiveDays cals t.serviceId := by
  rw [bucketOf, classifyPattern_eq_none_iff]
  exact Iff.rfl

/-- C6: every trip whose service id has at least one effective day is
assigned to exactly one period bucket; a trip whose service id has zero
effective days after exceptions appears in no bucket and its service id
is reported with a warning — never dropped silently, and partitioning
never fails. -/
theorem partitioner_exactly_one_bucket (cals : List ServiceCal)
    (trips : List TripRec) (t : TripRec) (ht : t ∈ trips) :
    (¬ zeroEffectiveDays cals t.serviceId →
      ∃! b, b ∈ (partitionTrips cals trips).buckets ∧ t ∈ b.2) ∧
    (zeroEffectiveDays cals t.serviceId →
      (∀ b ∈ (partitionTrips cals trips).buckets, t ∉ b.2) ∧
      t.serviceId ∈ (partitionTrips cals trips).warnings) := by
  constructor
  · intro hnz
    have hne : bucketOf cals t ≠ none :=
      fun h => hnz ((bucketOf_eq_none_iff cals t).mp h)
    obtain ⟨p0, hp0⟩ := Option.ne_none_iff_exists'.mp hne
    refine ⟨(p0, trips.filter (fun u => decide (bucketOf cals u = some p0))),
      ⟨?_, ?_⟩, ?_⟩
    · simp only [partitionTrips, List.mem_map]
      exact ⟨p0, List.mem_dedup.mpr (List.mem_filterMap.mpr ⟨t, ht, hp0⟩), rfl⟩
    · rw [List.mem_filter]
      exact ⟨ht, by simp [hp0]⟩
    · rintro b ⟨hb, htb⟩
      simp only [partitionTrips, List.mem_map] at hb
      obtain ⟨p, hp, rfl⟩ := hb
      rw [List.mem_filter] at htb
      have hsome := of_decide_eq_true htb.2
      rw [hp0] at hsome
      cases hsome
      rfl
  · intro hz
    have h0 : bucketOf cals t = none := (bucketOf_eq_none_iff cals t).mpr hz
    constructor
    · intro b hb htb
      simp only [partitionTrips, List.mem_map] at hb
      obtain ⟨p, hp, rfl⟩ := hb
      rw [List.mem_filter] at htb
      have hsome := of_decide_eq_true htb.2
      rw [h0] at hsome
      cases hsome
    · simp only [partitionTrips]
      rw [List.mem_dedup, List.mem_map]
      exact ⟨t, List.mem_filter.mpr ⟨ht, by simp [h0]⟩, rfl⟩

/-- Witness for C6: the weekday trip lands in exactly one bucket, the
dead-service trip lands in none and its service id is warned about. -/
theorem partitioner_witness :
    ((⟨100, 1⟩ : TripRec) ∈ tripsEx ∧ (⟨200, 2⟩ : TripRec) ∈ tripsEx) ∧
    (∃! b, b ∈ (partitionTrips calsEx tripsEx).buckets ∧
      (⟨100, 1⟩ : TripRec) ∈ b.2) ∧
    ((∀ b ∈ (partitionTrips calsEx tripsEx).buckets,
        (⟨200, 2⟩ : TripRec) ∉ b.2) ∧
      (⟨200, 2⟩ : TripRec).serviceId ∈ (partitionTrips calsEx tripsEx).warnings) :=
  ⟨⟨by decide, by decide⟩,
   (partitioner_exactly_one_bucket calsEx tripsEx ⟨100, 1⟩ (by decide)).1
     (by simp only [zeroEffectiveDays]; decide),
   (partitioner_exactly_one_bucket calsEx tripsEx ⟨200, 2⟩ (by decide)).2
     (by simp only [zeroEffectiveDays]; decide)⟩

/-- C8: a query with an empty origin set, an empty destination set or an
out-of-range time-of-day is rejected with a descriptive error before any
search begins; a valid query in which no destination stop is ever
reached returns an empty journey list, not an error. -/
theorem query_validation_and_empty_result (lib : Library) (q : Query) :
    ((q.origins = [] ∨ q.dests = [] ∨ ¬ validTimeOfDay q.depTime) →
      ∃ msg, getOptimizedPathsChecked lib q = .error msg) ∧
    (q.origins ≠ [] → q.dests ≠ [] → validTimeOfDay q.depTime →
      (∀ d ∈ q.dests,
        (runRounds lib q maxRounds (initState q)).best d = none) →
      getOptimizedPathsChecked lib q = .ok []) := by
  constructor
  · intro hbad
    rw [getOptimizedPathsChecked]
    by_cases h1 : q.origins.isEmpty
    · rw [if_pos h1]
      exact ⟨_, rfl⟩
    · rw [if_neg h1]
      by_cases h2 : q.dests.isEmpty
      · rw [if_pos h2]
        exact ⟨_, rfl⟩
      · rw [if_neg h2]
        have h3 : ¬ validTimeOfDay q.depTime := by
          rcases hbad with h | h | h
          · exact absurd (by simp [h]) h1
          · exact absurd (by simp [h]) h2
          · exact h
        have h4 : (!validTimeOfDayB q.depTime) = true := by
          simp only [validTimeOfDay, not_and_or, not_le, not_lt] at h3
          simp only [validTimeOfDayB, Bool.not_eq_true', Bool.and_eq_false_iff,
            decide_eq_false_iff_not, not_le, not_lt]
          omega
        rw [if_pos h4]
        exact ⟨_, rfl⟩
  · intro ho hd htime hnone
    have h1 : q.origins.isEmpty = false := by
      cases hqo : q.origins with
      | nil => exact absurd hqo ho
      | cons a l => simp
    have h2 : q.dests.isEmpty = false := by
      cases hqd : q.dests with
      | nil => exact absurd hqd hd
      | cons a l => simp
    have h3 : validTimeOfDayB q.depTime = true := by
      simp only [validTimeOfDayB, Bool.and_eq_true, decide_eq_true_eq]
      exact ⟨htime.1, htime.2⟩
    rw [getOptimizedPathsChecked]
    simp only [h1, h2, h3, Bool.not_true, Bool.false_eq_true, if_false]
    have hfm : q.dests.filterMap
        (extractJourney q (runRounds lib q maxRounds (initState q))
          (2 * maxRounds + 2)) = [] := by
      rw [List.filterMap_eq_nil_iff]
      intro d hdm
      rw [extractJourney, hnone d hdm]
    rw [getOptimizedPaths, forwardSearch]
    simp [hfm, sortByTotal]

/-- Witness for C8: an empty origin set is rejected with an error, and a
valid query to an unreachable stop returns an empty list. -/
theorem query_validation_witness :
    (∃ msg, getOptimizedPathsChecked libEx ⟨[], [4], 28800, [], [], 10⟩ =
      .error msg) ∧
    getOptimizedPathsChecked libEx ⟨[1], [99], 28800, [], [], 10⟩ = .ok [] :=
  ⟨(query_validation_and_empty_result libEx ⟨[], [4], 28800, [], [], 10⟩).1
     (Or.inl rfl),
   (query_validation_and_empty_result libEx ⟨[1], [99], 28800, [], [], 10⟩).2
     (by decide) (by decide) (by norm_num [validTimeOfDay]) (by decide)⟩

theorem coversB_refl (b : Nat → Option Int) : coversB b b :=
  fun _ t h => ⟨t, h, le_refl t⟩

theorem coversB_trans {b1 b2 b3 : Nat → Option Int} (h12 : coversB b1 b2)
    (h23 : coversB b2 b3) : coversB b1 b3 := by
  intro s t h
  obtain ⟨t', h', le'⟩ := h12 s t h
  obtain ⟨t'', h'', le''⟩ := h23 s t' h'
  exact ⟨t'', h'', le_trans le'' le'⟩

theorem improve_covers (st : SState) (s : Nat) (t : Int) (p : Parent) :
    coversB st.best (improve st s t p).best := by
  intro x u hx
  unfold improve
  cases hb : st.best s with
  | none =>
      by_cases hxs : x = s
      · subst hxs
        rw [hx] at hb
        cases hb
      · exact ⟨u, by simp [hxs, hx], le_refl u⟩
  | some t0 =>
      dsimp only
      by_cases hlt : t < t0
      · rw [if_pos hlt]
        by_cases hxs : x = s
        · subst hxs
          rw [hx] at hb
          cases hb
          exact ⟨t, by simp, le_of_lt hlt⟩
        · exact ⟨u, by simp [hxs, hx], le_refl u⟩
      · rw [if_neg hlt]
        exact ⟨u, hx, le_refl u⟩

theorem foldl_covers {α : Type} {β : Type} (f : α → β → α)
    (g : α → Nat → Option Int) (h : ∀ a b, coversB (g a) (g (f a b)))
    (l : List β) (a : α) : coversB (g a) (g (l.foldl f a)) := by
  induction l generalizing a with
  | nil => exact coversB_refl _
  | cons x xs ih => exact coversB_trans (h a x) (ih (f a x))

theorem scanStep_covers (r : BinRoute) (pb : Nat → Option Int)
    (acc : SState × Option (List Int × Nat × Int)) (pos : Nat × Nat) :
    coversB acc.1.best (scanStep r pb acc pos).1.best := by
  obtain ⟨st, cur⟩ := acc
  obtain ⟨i, s⟩ := pos
  unfold scanStep
  cases cur with
  | none => exact coversB_refl _
  | some rbb =>
      obtain ⟨row, bs, bt⟩ := rbb
      exact improve_covers st s (tripTime row i) _

theorem scanRoute_covers (r : BinRoute) (pb : Nat → Option Int)
    (st : SState) : coversB st.best (scanRoute r pb st).best := by
  unfold scanRoute
  exact foldl_covers (scanStep r pb) (fun a => a.1.best)
    (scanStep_covers r pb) r.stopIds.enum (st, none)

theorem relaxTransfers_covers (lib : Library) (st : SState) :
    coversB st.best (relaxTransfers lib st).best := by
  unfold relaxTransfers
  refine foldl_covers _ SState.best (fun a uvd => ?_) lib.transfersFlat st
  by_cases hm : st.marked.contains uvd.1
  · rw [if_pos hm]
    cases hb : st.best uvd.1 with
    | none => exact coversB_refl _
    | some t => exact improve_covers a uvd.2.1 (t + uvd.2.2) _
  · rw [if_neg hm]
    exact coversB_refl _

theorem raptorStep_covers (lib : Library) (q : Query) (st : SState) :
    coversB st.best (raptorStep lib q st).best := by
  unfold raptorStep
  have h1 : coversB st.best ((lib.routes.filter
      (fun r => routeAllowed q r &&
        r.stopIds.any (fun s => st.marked.contains s))).foldl
      (fun acc r => scanRoute r st.best acc) ⟨st.best, st.par, []⟩).best :=
    foldl_covers _ SState.best
      (fun a r => scanRoute_covers r st.best a) _ ⟨st.best, st.par, []⟩
  exact coversB_trans h1 (relaxTransfers_covers lib _)

theorem runRounds_covers (lib : Library) (q : Query) (k : Nat) (st : SState) :
    coversB st.best (runRounds lib q k st).best := by
  induction k generalizing st with
  | zero => exact coversB_refl _
  | succ k ih =>
      rw [runRounds]
      by_cases hm : st.marked.isEmpty
      · rw [if_pos hm]
        exact coversB_refl _
      · rw [if_neg hm]
        exact coversB_trans (raptorStep_covers lib q st) (ih (raptorStep lib q st))

theorem runRounds_mono (lib : Library) (q : Query) (k k' : Nat) (hk : k ≤ k')
    (st : SState) :
    coversB (runRounds lib q k st).best (runRounds lib q k' st).best := by
  induction k generalizing k' st with
  | zero => exact runRounds_covers lib q k' st
  | succ k ih =>
      cases k' with
      | zero => omega
      | succ k'' =>
          rw [runRounds, runRounds]
          by_cases hm : st.marked.isEmpty
          · rw [if_pos hm, if_pos hm]
            exact coversB_refl _
          · rw [if_neg hm, if_neg hm]
            exact ih k'' (by omega) (raptorStep lib q st)

/-- C4: for a forward query, raising the round bound from `k` to
`k' ≥ k` never removes a destination label found with bound `k` and
never worsens it — the larger bound labels the destination with an
arrival time no later. -/
theorem round_bound_monotone (lib : Library) (q : Query) (k k' : Nat)
    (hk : k ≤ k') (d : Nat) (_hd : d ∈ q.dests) (t : Int)
    (h : (runRounds lib q k (initState q)).best d = some t) :
    ∃ t', (runRounds lib q k' (initState q)).best d = some t' ∧ t' ≤ t :=
  runRounds_mono lib q k k' hk (initState q) d t h

/-- Witness for C4 on the scenario network: the bound-2 label at the
destination survives with bound 4. -/
theorem round_bound_monotone_witness :
    ((2 : Nat) ≤ 4 ∧ (4 : Nat) ∈ qEx.dests ∧
      (runRounds libEx qEx 2 (initState qEx)).best 4 = some 30000) ∧
    ∃ t', (runRounds libEx qEx 4 (initState qEx)).best 4 = some t' ∧
      t' ≤ 30000 :=
  ⟨⟨by decide, by decide, by decide⟩,
   round_bound_monotone libEx qEx 2 4 (by decide) 4 (by decide) 30000
     (by decide)⟩

theorem routeAllowed_spec (q : Query) (r : BinRoute)
    (h : routeAllowed q r = true) :
    (q.allowedNames ≠ [] → r.name ∈ q.allowedNames) ∧ r.id ∉ q.blockedIds := by
  rw [routeAllowed] at h
  simp only [Bool.and_eq_true, Bool.or_eq_true, Bool.not_eq_true',
    List.isEmpty_iff] at h
  refine ⟨fun hne => ?_, fun hmem => ?_⟩
  · exact List.elem_iff.mp (h.2.resolve_left hne)
  · rw [← List.elem_iff] at hmem
    rw [List.contains, hmem] at h
    exact absurd h.1 (by simp)

theorem improve_stateOk (q : Query) (st : SState) (s : Nat) (t : Int)
    (p : Parent) (hst : stateOk q st) (hp : parentOk q (some p)) :
    stateOk q (improve st s t p) := by
  intro x
  unfold improve
  cases hb : st.best s with
  | none =>
      dsimp only
      by_cases hxs : x = s
      · simp only [hxs, if_pos rfl]
        exact hp
      · simp only [hxs, if_false, if_neg hxs]
        exact hst x
  | some t0 =>
      dsimp only
      by_cases hlt : t < t0
      · rw [if_pos hlt]
        by_cases hxs : x = s
        · simp only [hxs, if_pos rfl]
          exact hp
        · simp only [if_neg hxs]
          exact hst x
      · rw [if_neg hlt]
        exact hst x

theorem foldl_inv {α : Type} {β : Type} (f : α → β → α) (P : α → Prop)
    (l : List β) (h : ∀ a, ∀ b ∈ l, P a → P (f a b)) (a : α) (ha : P a) :
    P (l.foldl f a) := by
  induction l generalizing a with
  | nil => exact ha
  | cons x xs ih =>
      exact ih (fun a' b hb ha' => h a' b (List.mem_cons_of_mem x hb) ha')
        (f a x) (h a x (List.mem_cons_self x xs) ha)

theorem scanStep_stateOk (q : Query) (r : BinRoute) (pb : Nat → Option Int)
    (acc : SState × Option (List Int × Nat × Int)) (pos : Nat × Nat)
    (hra : routeAllowed q r = true) (hst : stateOk q acc.1) :
    stateOk q (scanStep r pb acc pos).1 := by
  obtain ⟨st, cur⟩ := acc
  obtain ⟨i, s⟩ := pos
  unfold scanStep
  cases cur with
  | none => exact hst
  | some rbb =>
      obtain ⟨row, bs, bt⟩ := rbb
      refine improve_stateOk q st s (tripTime row i) _ hst ?_
      exact routeAllowed_spec q r hra

theorem scanRoute_stateOk (q : Query) (r : BinRoute) (pb : Nat → Option Int)
    (st : SState) (hra : routeAllowed q r = true) (hst : stateOk q st) :
    stateOk q (scanRoute r pb st) := by
  unfold scanRoute
  have := foldl_inv (scanStep r pb) (fun acc => stateOk q acc.1)
    r.stopIds.enum
    (fun acc pos _ hacc => scanStep_stateOk q r pb acc pos hra hacc)
    (st, none) hst
  exact this

theorem relaxTransfers_stateOk (q : Query) (lib : Library) (st : SState)
    (hst : stateOk q st) : stateOk q (relaxTransfers lib st) := by
  unfold relaxTransfers
  refine foldl_inv _ (stateOk q) lib.transfersFlat
    (fun a uvd _ ha => ?_) st hst
  by_cases hm : st.marked.contains uvd.1
  · rw [if_pos hm]
    cases hb : st.best uvd.1 with
    | none => exact ha
    | some t => exact improve_stateOk q a uvd.2.1 (t + uvd.2.2) _ ha trivial
  · rw [if_neg hm]
    exact ha

theorem raptorStep_stateOk (q : Query) (lib : Library) (st : SState)
    (hst : stateOk q st) : stateOk q (raptorStep lib q st) := by
  unfold raptorStep
  refine relaxTransfers_stateOk q lib _ ?_
  refine foldl_inv _ (stateOk q) _ (fun a r hr ha => ?_) ⟨st.best, st.par, []⟩ hst
  rw [List.mem_filter, Bool.and_eq_true] at hr
  exact scanRoute_stateOk q r st.best a hr.2.1 ha

theorem initState_stateOk (q : Query) : stateOk q (initState q) := by
  intro s
  rw [initState]
  by_cases h : q.origins.contains s
  · simp only [h, if_true]
    trivial
  · simp only [h, if_false]
    trivial

theorem runRounds_stateOk (q : Query) (lib : Library) (k : Nat) (st : SState)
    (hst : stateOk q st) : stateOk q (runRounds lib q k st) := by
  induction k generalizing st with
  | zero => exact hst
  | succ k ih =>
      rw [runRounds]
      by_cases hm : st.marked.isEmpty
      · rw [if_pos hm]
        exact hst
      · rw [if_neg hm]
        exact ih (raptorStep lib q st) (raptorStep_stateOk q lib st hst)

theorem buildLegs_ok (q : Query) (st : SState) (hst : stateOk q st) :
    ∀ fuel s legs, buildLegs st.par fuel s = some legs →
      ∀ leg ∈ legs, legOk q leg := by
  intro fuel
  induction fuel with
  | zero =>
      intro s legs h
      cases h
  | succ fuel ih =>
      intro s legs h leg hleg
      rw [buildLegs] at h
      cases hp : st.par s with
      | none =>
          rw [hp] at h
          cases h
      | some p =>
          rw [hp] at h
          cases p with
          | origin =>
              cases h
              cases hleg
          | transit rid rnm bs bt al =>
              dsimp only at h
              cases hb : buildLegs st.par fuel bs with
              | none =>
                  rw [hb] at h
                  cases h
              | some legs' =>
                  rw [hb] at h
                  cases h
                  rcases List.mem_append.mp hleg with hl | hl
                  · exact ih bs legs' hb leg hl
                  · rw [List.mem_singleton] at hl
                    subst hl
                    have hpo := hst s
                    rw [hp] at hpo
                    exact hpo
          | walk u d =>
              dsimp only at h
              cases hb : buildLegs st.par fuel u with
              | none =>
                  rw [hb] at h
                  cases h
              | some legs' =>
                  rw [hb] at h
                  cases h
                  rcases List.mem_append.mp hleg with hl | hl
                  · exact ih u legs' hb leg hl
                  · rw [List.mem_singleton] at hl
                    subst hl
                    trivial

theorem mem_insertByTotal (a j : Journey) (l : List Journey) :
    a ∈ insertByTotal j l ↔ a = j ∨ a ∈ l := by
  induction l with
  | nil => simp [insertByTotal]
  | cons x xs ih =>
      rw [insertByTotal]
      by_cases hc : totalTime j ≤ totalTime x
      · rw [if_pos hc]
        simp
      · rw [if_neg hc]
        simp only [List.mem_cons, ih]
        tauto

theorem mem_sortByTotal (a : Journey) (l : List Journey) :
    a ∈ sortByTotal l ↔ a ∈ l := by
  unfold sortByTotal
  induction l with
  | nil => simp
  | cons x xs ih =>
      simp only [List.foldr_cons, mem_insertByTotal, ih, List.mem_cons]

/-- C2: every transit leg of every journey returned by the forward search
uses a route that passes the filters — its name is in the allow-list
whenever an allow-list is set, and its id is never in the block-list (so
a route both allowed by name and blocked by id is excluded: the
block-list takes precedence). -/
theorem route_filter_correct (lib : Library) (q : Query) (j : Journey)
    (hj : j ∈ getOptimizedPaths lib q) (leg : Leg) (hleg : leg ∈ j.legs)
    (rid : Nat) (rnm : List Nat) (bs ts : Nat) (b al : Int)
    (he : leg = .transit rid rnm bs ts b al) :
    (q.allowedNames ≠ [] → rnm ∈ q.allowedNames) ∧ rid ∉ q.blockedIds := by
  simp only [getOptimizedPaths, forwardSearch] at hj
  have hj1 := List.take_subset q.maxResults _ hj
  rw [mem_sortByTotal, List.mem_dedup, List.mem_filterMap] at hj1
  obtain ⟨d, _, hex⟩ := hj1
  rw [extractJourney] at hex
  cases hbest : (runRounds lib q maxRounds (initState q)).best d with
  | none =>
      rw [hbest] at hex
      cases hex
  | some arr =>
      rw [hbest] at hex
      dsimp only at hex
      cases hbl : buildLegs (runRounds lib q maxRounds (initState q)).par
          (2 * maxRounds + 2) d with
      | none =>
          rw [hbl] at hex
          cases hex
      | some legs =>
          rw [hbl] at hex
          cases hex
          have hok := buildLegs_ok q (runRounds lib q maxRounds (initState q))
            (runRounds_stateOk q lib maxRounds (initState q)
              (initState_stateOk q))
            (2 * maxRounds + 2) d legs hbl leg hleg
          rw [he] at hok
          exact hok

/-- Witness for C2: on the scenario network with an allow-list holding
both route names, the returned journey's first transit leg uses route
`A`, whose name is in the allow-list and whose id is unblocked. -/
theorem route_filter_correct_witness :
    (jEx ∈ getOptimizedPaths libEx qFil ∧
      Leg.transit 10 [65] 1 3 28800 29400 ∈ jEx.legs) ∧
    ((qFil.allowedNames ≠ [] → [65] ∈ qFil.allowedNames) ∧
      (10 : Nat) ∉ qFil.blockedIds) :=
  ⟨⟨by decide, by decide⟩,
   route_filter_correct libEx qFil jEx (by decide)
     (Leg.transit 10 [65] 1 3 28800 29400) (by decide) 10 [65] 1 3 28800 29400
     rfl⟩

theorem mem_insertByDep (a j : Journey) (l : List Journey) :
    a ∈ insertByDep j l ↔ a = j ∨ a ∈ l := by
  induction l with
  | nil => simp [insertByDep]
  | cons x xs ih =>
      rw [insertByDep]
      by_cases hc : x.dep ≤ j.dep
      · rw [if_pos hc]
        simp
      · rw [if_neg hc]
        simp only [List.mem_cons, ih]
        tauto

theorem mem_sortByDepDesc (a : Journey) (l : List Journey) :
    a ∈ sortByDepDesc l ↔ a ∈ l := by
  unfold sortByDepDesc
  induction l with
  | nil => simp
  | cons x xs ih =>
      simp only [List.foldr_cons, mem_insertByDep, ih, List.mem_cons]

theorem pairwise_insertByDep (j : Journey) (l : List Journey)
    (h : List.Pairwise (fun x y => y.dep ≤ x.dep) l) :
    List.Pairwise (fun x y => y.dep ≤ x.dep) (insertByDep j l) := by
  induction l with
  | nil => simp [insertByDep]
  | cons x xs ih =>
      rw [List.pairwise_cons] at h
      rw [insertByDep]
      by_cases hc : x.dep ≤ j.dep
      · rw [if_pos hc]
        rw [List.pairwise_cons]
        refine ⟨fun y hy => ?_, List.pairwise_cons.mpr h⟩
        rcases List.mem_cons.mp hy with hy | hy
        · subst hy
          exact hc
        · exact le_trans (h.1 y hy) hc
      · rw [if_neg hc]
        rw [List.pairwise_cons]
        refine ⟨fun y hy => ?_, ih h.2⟩
        rcases (mem_insertByDep y j xs).mp hy with hy | hy
        · subst hy
          exact le_of_lt (not_le.mp hc)
        · exact h.1 y hy

theorem pairwise_sortByDepDesc (l : List Journey) :
    List.Pairwise (fun x y => y.dep ≤ x.dep) (sortByDepDesc l) := by
  unfold sortByDepDesc
  induction l with
  | nil => simp
  | cons x xs ih =>
      rw [List.foldr_cons]
      exact pairwise_insertByDep x _ ih

/-- C5: the arrive-by search returns journeys sorted by departure time
descending (latest feasible departure first), and never returns a
journey departing earlier than the target arrival time minus the search
window. -/
theorem arriveby_window_and_order (lib : Library) (q : QueryArr) :
    (∀ j ∈ getOptimizedPathsArriveBy lib q,
      q.arrTime - 60 * q.windowMin ≤ j.dep) ∧
    List.Pairwise (fun a b => b.dep ≤ a.dep)
      (getOptimizedPathsArriveBy lib q) := by
  constructor
  · intro j hj
    simp only [getOptimizedPathsArriveBy, arriveBySearch] at hj
    have hj1 := List.take_subset _ _ hj
    rw [mem_sortByDepDesc, List.mem_filter] at hj1
    exact of_decide_eq_true hj1.2
  · simp only [getOptimizedPathsArriveBy, arriveBySearch]
    exact List.Pairwise.sublist (List.take_sublist _ _) (pairwise_sortByDepDesc _)

/-- Witness for C5: the arrive-by scenario (reach stop 4 by 08:20 with a
60-minute window) returns the scenario journey, and its departure is
within the window. -/
theorem arriveby_witness :
    jEx ∈ getOptimizedPathsArriveBy libEx qArrEx ∧
    qArrEx.arrTime - 60 * qArrEx.windowMin ≤ jEx.dep :=
  ⟨by decide, (arriveby_window_and_order libEx qArrEx).1 jEx (by decide)⟩
